import Mathlib

/-!
Verification of the image-preprocessing pipeline (grayscale conversion,
integral image, adaptive thresholding, median denoise, upscaling and the
orchestrator) against its natural-language specification.

A pixel buffer is modelled as a total function `d : ℕ → ℕ` from raw byte
index to channel value, together with a width `w` and height `h`; the live
region is the first `w*h*4` entries (four interleaved channels per pixel,
as in the RGBA canvas data the code operates on).  Pure pixel loops become
pointwise functional definitions; JavaScript `Math.max(a-b,0)` clamping is
truncated natural subtraction, `Math.floor(n/2)` on a nonnegative size is
natural division, and the floating-point mean comparison is carried out in
`ℚ` (the operands are integer sums and counts).
-/

namespace ImageProc

/-- First-channel intensity of pixel `(x, y)` in a buffer of width `w`:
the code reads `data[(y*width+x)*4]`. -/
def px (d : ℕ → ℕ) (w x y : ℕ) : ℕ := d ((y * w + x) * 4)

/-- The running horizontal accumulator `sum` of `computeIntegralImage`
after processing column `x` of row `y`.  `sum` is a plain JavaScript
number (float64), exact for integer values up to `2^53`; a row sum is at
most `255 * width`, far below that, so it is modelled as an exact
natural. -/
def rowSum (d : ℕ → ℕ) (w y : ℕ) : ℕ → ℕ
  | 0 => px d w 0 y
  | x + 1 => rowSum d w y x + px d w (x + 1) y

/-- ECMAScript `ToInt32`: the value read back after storing an
integer-valued number into an `Int32Array` slot — reduced mod `2^32` into
`[-2^31, 2^31)`. -/
def toInt32 (n : ℤ) : ℤ := (n + 2 ^ 31) % 2 ^ 32 - 2 ^ 31

/-- `computeIntegralImage` from the source: the table lives in an
`Int32Array`, so every store wraps through `toInt32`.  The entry at
`(x, y)` is the stored row accumulator for `y = 0` and otherwise the
stored sum of the (wrapped) entry directly above and the current row
accumulator (`integral[i] = integral[(y-1)*width+x] + sum`). -/
def computeIntegralImage (d : ℕ → ℕ) (w x : ℕ) : ℕ → ℤ
  | 0 => toInt32 (rowSum d w 0 x)
  | y + 1 => toInt32 (computeIntegralImage d w x y + rowSum d w (y + 1) x)

/-- Brute-force sum of first-channel intensities over the rectangle from
`(0,0)` to `(x,y)` inclusive — the reference value the spec compares the
integral image against. -/
def bruteSum (d : ℕ → ℕ) (w x y : ℕ) : ℕ :=
  ∑ y' ∈ Finset.range (y + 1), ∑ x' ∈ Finset.range (x + 1), px d w x' y'

theorem rowSum_eq (d : ℕ → ℕ) (w y : ℕ) :
    ∀ x, rowSum d w y x = ∑ x' ∈ Finset.range (x + 1), px d w x' y := by
  intro x
  induction x with
  | zero => simp [rowSum]
  | succ n ih => rw [Finset.sum_range_succ, ← ih, rowSum]

theorem toInt32_eq_self (n : ℤ) (h0 : 0 ≤ n) (h1 : n < 2 ^ 31) :
    toInt32 n = n := by
  unfold toInt32
  rw [Int.emod_eq_of_lt (by omega) (by omega)]
  omega

/-- The brute-force prefix sum is monotone in both coordinates. -/
theorem bruteSum_mono (d : ℕ → ℕ) (w : ℕ) {x y x' y' : ℕ}
    (hx : x ≤ x') (hy : y ≤ y') :
    bruteSum d w x y ≤ bruteSum d w x' y' := by
  unfold bruteSum
  calc ∑ b ∈ Finset.range (y + 1), ∑ a ∈ Finset.range (x + 1), px d w a b
      ≤ ∑ b ∈ Finset.range (y + 1), ∑ a ∈ Finset.range (x' + 1), px d w a b :=
        Finset.sum_le_sum fun b _ =>
          Finset.sum_le_sum_of_subset (Finset.range_subset.mpr (by omega))
    _ ≤ ∑ b ∈ Finset.range (y' + 1), ∑ a ∈ Finset.range (x' + 1), px d w a b :=
        Finset.sum_le_sum_of_subset (Finset.range_subset.mpr (by omega))

/-- As long as the prefix sum at `(x, y)` stays below `2^31`, none of the
stores feeding the entry at `(x, y)` wraps and the wrapped integral equals
the exact brute-force prefix sum. -/
theorem computeIntegralImage_eq_bruteSum (d : ℕ → ℕ) (w x : ℕ) :
    ∀ y, bruteSum d w x y < 2 ^ 31 →
      computeIntegralImage d w x y = (bruteSum d w x y : ℤ) := by
  intro y
  induction y with
  | zero =>
      intro hovf
      have h0 : bruteSum d w x 0 = rowSum d w 0 x := by
        unfold bruteSum
        rw [Finset.sum_range_one, rowSum_eq]
      simp only [computeIntegralImage]
      rw [← h0]
      exact toInt32_eq_self _ (by exact_mod_cast Nat.zero_le _)
        (by exact_mod_cast hovf)
  | succ n ih =>
      intro hovf
      have hstep : bruteSum d w x (n + 1) =
          bruteSum d w x n + rowSum d w (n + 1) x := by
        unfold bruteSum
        rw [Finset.sum_range_succ, rowSum_eq]
      simp only [computeIntegralImage]
      rw [ih (by omega)]
      have hc : (bruteSum d w x n : ℤ) + (rowSum d w (n + 1) x : ℤ) =
          ((bruteSum d w x (n + 1) : ℕ) : ℤ) := by
        exact_mod_cast hstep.symm
      rw [hc]
      exact toInt32_eq_self _ (by exact_mod_cast Nat.zero_le _)
        (by exact_mod_cast hovf)

/-- **C1, amended.** For every coordinate `(x, y)` inside the buffer whose
rectangle sum stays below `2^31` (so the `Int32Array` entry does not
overflow), the integral image built by `computeIntegralImage` at `(x, y)`
equals the brute-force sum of first-channel intensities over the rectangle
from `(0,0)` to `(x,y)` inclusive; at overflow sizes the stored entry
wraps (see the counterexample). -/
theorem integral_image_correct (d : ℕ → ℕ) (w h x y : ℕ)
    (hx : x < w) (hy : y < h)
    (hovf : bruteSum d w x y < 2 ^ 31) :
    computeIntegralImage d w x y =
      ((∑ y' ∈ Finset.range (y + 1), ∑ x' ∈ Finset.range (x + 1), px d w x' y' : ℕ) : ℤ) :=
  computeIntegralImage_eq_bruteSum d w x y hovf

/-- A 2×2 buffer with first-channel intensities 10, 20, 30, 40. -/
def sampleBuf : ℕ → ℕ := fun j =>
  if j = 0 then 10 else if j = 4 then 20 else if j = 8 then 30
  else if j = 12 then 40 else 0

/-- Witness for C1 at the concrete 2×2 buffer `sampleBuf` and `(x,y) = (1,1)`:
the integral-image entry is the full-buffer sum `10+20+30+40`, whose
overflow hypothesis holds concretely. -/
theorem integral_image_correct_witness :
    computeIntegralImage sampleBuf 2 1 1 =
      ((∑ y' ∈ Finset.range 2, ∑ x' ∈ Finset.range 2, px sampleBuf 2 x' y' : ℕ) : ℤ) :=
  integral_image_correct sampleBuf 2 2 1 1 (by decide) (by decide) (by decide)

/-- An all-bright buffer: every byte 255. -/
def bright : ℕ → ℕ := fun _ => 255

theorem rowSum_bright (w y : ℕ) : ∀ x, rowSum bright w y x = 255 * (x + 1) := by
  intro x
  induction x with
  | zero => simp [rowSum, px, bright]
  | succ n ih =>
      rw [rowSum, ih]
      simp only [px, bright]
      ring

theorem computeIntegralImage_bright_row (w x : ℕ) :
    computeIntegralImage bright w x 0 = toInt32 ((255 * (x + 1) : ℕ) : ℤ) := by
  simp only [computeIntegralImage]
  rw [rowSum_bright]

theorem bright_integral_last :
    computeIntegralImage bright 8421505 8421504 0 = -2147483521 := by
  rw [computeIntegralImage_bright_row]
  decide

theorem bright_integral_prev :
    computeIntegralImage bright 8421505 8421503 0 = 2147483520 := by
  rw [computeIntegralImage_bright_row]
  decide

/-- **C1, counterexample.** On an all-255 buffer one row of 8421505
pixels, the `Int32Array` integral at the last column wraps: the code
stores `-2147483521` where the brute-force rectangle sum is
`2147483775 = 2^31 + 127`. -/
theorem integral_overflow_counterexample :
    computeIntegralImage bright 8421505 8421504 0 = -2147483521 ∧
    bruteSum bright 8421505 8421504 0 = 2147483775 ∧
    computeIntegralImage bright 8421505 8421504 0 ≠
      (bruteSum bright 8421505 8421504 0 : ℤ) := by
  have hbs : bruteSum bright 8421505 8421504 0 = 2147483775 := by
    unfold bruteSum
    rw [Finset.sum_range_one]
    simp only [px, bright, Finset.sum_const, Finset.card_range, smul_eq_mul]
  refine ⟨bright_integral_last, hbs, ?_⟩
  rw [bright_integral_last, hbs]
  decide

/-- Brute-force sum of first-channel intensities over the rectangle with
corners `(x1,y1)` and `(x2,y2)` inclusive — the reference value for the
windowed-mean contract. -/
def bruteRect (d : ℕ → ℕ) (w x1 y1 x2 y2 : ℕ) : ℕ :=
  ∑ y ∈ Finset.Icc y1 y2, ∑ x ∈ Finset.Icc x1 x2, px d w x y

/-- The inclusion–exclusion value `D + A - B - C` computed by
`applyAdaptiveThreshold` from the integral image, with corners that fall
out of bounds treated as zero exactly as in the source
(`A = (x1 > 0 && y1 > 0) ? integral[...] : 0`, etc.). -/
def rectAreaSum (d : ℕ → ℕ) (w x1 y1 x2 y2 : ℕ) : ℤ :=
  let A : ℤ := if 0 < x1 ∧ 0 < y1 then computeIntegralImage d w (x1 - 1) (y1 - 1) else 0
  let B : ℤ := if 0 < y1 then computeIntegralImage d w x2 (y1 - 1) else 0
  let Cv : ℤ := if 0 < x1 then computeIntegralImage d w (x1 - 1) y2 else 0
  let D : ℤ := computeIntegralImage d w x2 y2
  D + A - B - Cv

theorem sum_range_split (f : ℕ → ℕ) (a b : ℕ) (h : a ≤ b + 1) :
    ∑ x ∈ Finset.range (b + 1), f x =
      (∑ x ∈ Finset.range a, f x) + ∑ x ∈ Finset.Icc a b, f x := by
  have h1 : Finset.Icc a b = Finset.Ico a (b + 1) := by
    ext k; simp [Nat.lt_succ_iff]
  rw [h1, Finset.range_eq_Ico]
  exact (Finset.sum_Ico_consecutive f (Nat.zero_le a) h).symm

theorem Icc_zero_eq_range (n : ℕ) : Finset.Icc 0 n = Finset.range (n + 1) := by
  ext k; simp [Nat.lt_succ_iff]

/-- Core inclusion–exclusion identity: when the rectangle's full prefix
sum fits below `2^31` (so no corner entry has wrapped), the
`D + A - B - C` corner formula over the `Int32Array` integral image
recovers the brute-force rectangle sum. -/
theorem rectAreaSum_eq_bruteRect (d : ℕ → ℕ) (w x1 y1 x2 y2 : ℕ)
    (hx12 : x1 ≤ x2) (hy12 : y1 ≤ y2)
    (hovf : bruteSum d w x2 y2 < 2 ^ 31) :
    rectAreaSum d w x1 y1 x2 y2 = (bruteRect d w x1 y1 x2 y2 : ℤ) := by
  have hDex : computeIntegralImage d w x2 y2 = (bruteSum d w x2 y2 : ℤ) :=
    computeIntegralImage_eq_bruteSum d w x2 y2 hovf
  have hrow : ∀ y : ℕ, 0 < x1 →
      ∑ x ∈ Finset.range (x2 + 1), px d w x y =
        (∑ x ∈ Finset.range x1, px d w x y) + ∑ x ∈ Finset.Icc x1 x2, px d w x y :=
    fun y _ => sum_range_split (fun x => px d w x y) x1 x2 (by omega)
  rcases Nat.eq_zero_or_pos x1 with hx1 | hx1 <;>
    rcases Nat.eq_zero_or_pos y1 with hy1 | hy1
  · subst hx1; subst hy1
    simp [rectAreaSum, hDex, bruteSum, bruteRect, Icc_zero_eq_range]
  · -- x1 = 0, 0 < y1 : vertical split only
    subst hx1
    have hBex : computeIntegralImage d w x2 (y1 - 1) =
        (bruteSum d w x2 (y1 - 1) : ℤ) :=
      computeIntegralImage_eq_bruteSum d w x2 (y1 - 1)
        (lt_of_le_of_lt (bruteSum_mono d w le_rfl (by omega)) hovf)
    have hD : bruteSum d w x2 y2 = bruteSum d w x2 (y1 - 1) +
        ∑ y ∈ Finset.Icc y1 y2, ∑ x ∈ Finset.range (x2 + 1), px d w x y := by
      unfold bruteSum
      rw [(by omega : y1 - 1 + 1 = y1)]
      exact sum_range_split (fun y => ∑ x ∈ Finset.range (x2 + 1), px d w x y)
        y1 y2 (by omega)
    have hB : bruteRect d w 0 y1 x2 y2 =
        ∑ y ∈ Finset.Icc y1 y2, ∑ x ∈ Finset.range (x2 + 1), px d w x y := by
      unfold bruteRect
      rw [Icc_zero_eq_range]
    simp only [rectAreaSum, hDex, hBex, hy1,
      Nat.lt_irrefl, false_and, if_false, if_true, if_pos hy1]
    rw [hB]
    omega
  · -- 0 < x1, y1 = 0 : horizontal split only
    subst hy1
    have hCex : computeIntegralImage d w (x1 - 1) y2 =
        (bruteSum d w (x1 - 1) y2 : ℤ) :=
      computeIntegralImage_eq_bruteSum d w (x1 - 1) y2
        (lt_of_le_of_lt (bruteSum_mono d w (by omega) le_rfl) hovf)
    have hD : bruteSum d w x2 y2 = bruteSum d w (x1 - 1) y2 +
        ∑ y ∈ Finset.range (y2 + 1), ∑ x ∈ Finset.Icc x1 x2, px d w x y := by
      unfold bruteSum
      rw [(by omega : x1 - 1 + 1 = x1), ← Finset.sum_add_distrib]
      exact Finset.sum_congr rfl (fun y _ => hrow y hx1)
    have hB : bruteRect d w x1 0 x2 y2 =
        ∑ y ∈ Finset.range (y2 + 1), ∑ x ∈ Finset.Icc x1 x2, px d w x y := by
      unfold bruteRect
      rw [Icc_zero_eq_range]
    simp only [rectAreaSum, hDex, hCex, hx1,
      Nat.lt_irrefl, and_false, if_false, if_true, if_pos hx1]
    rw [hB]
    omega
  · -- 0 < x1, 0 < y1 : both splits
    have hAex : computeIntegralImage d w (x1 - 1) (y1 - 1) =
        (bruteSum d w (x1 - 1) (y1 - 1) : ℤ) :=
      computeIntegralImage_eq_bruteSum d w (x1 - 1) (y1 - 1)
        (lt_of_le_of_lt (bruteSum_mono d w (by omega) (by omega)) hovf)
    have hBex : computeIntegralImage d w x2 (y1 - 1) =
        (bruteSum d w x2 (y1 - 1) : ℤ) :=
      computeIntegralImage_eq_bruteSum d w x2 (y1 - 1)
        (lt_of_le_of_lt (bruteSum_mono d w le_rfl (by omega)) hovf)
    have hCex : computeIntegralImage d w (x1 - 1) y2 =
        (bruteSum d w (x1 - 1) y2 : ℤ) :=
      computeIntegralImage_eq_bruteSum d w (x1 - 1) y2
        (lt_of_le_of_lt (bruteSum_mono d w (by omega) le_rfl) hovf)
    have hP1 : bruteSum d w x2 y2 = bruteSum d w x2 (y1 - 1) +
        ∑ y ∈ Finset.Icc y1 y2, ∑ x ∈ Finset.range (x2 + 1), px d w x y := by
      unfold bruteSum
      rw [(by omega : y1 - 1 + 1 = y1)]
      exact sum_range_split (fun y => ∑ x ∈ Finset.range (x2 + 1), px d w x y)
        y1 y2 (by omega)
    have hP2 : bruteSum d w (x1 - 1) y2 = bruteSum d w (x1 - 1) (y1 - 1) +
        ∑ y ∈ Finset.Icc y1 y2, ∑ x ∈ Finset.range x1, px d w x y := by
      unfold bruteSum
      rw [(by omega : y1 - 1 + 1 = y1), (by omega : x1 - 1 + 1 = x1)]
      exact sum_range_split (fun y => ∑ x ∈ Finset.range x1, px d w x y)
        y1 y2 (by omega)
    have hP3 : ∑ y ∈ Finset.Icc y1 y2, ∑ x ∈ Finset.range (x2 + 1), px d w x y =
        (∑ y ∈ Finset.Icc y1 y2, ∑ x ∈ Finset.range x1, px d w x y) +
          bruteRect d w x1 y1 x2 y2 := by
      unfold bruteRect
      rw [← Finset.sum_add_distrib]
      exact Finset.sum_congr rfl (fun y _ => hrow y hx1)
    simp only [rectAreaSum, hDex, hAex, hBex, hCex,
      if_pos (And.intro hx1 hy1), if_pos hx1, if_pos hy1]
    omega

/-- **C2, amended.** For every rectangle `(x1,y1)-(x2,y2)` fully inside an
image whose total intensity sum stays below `2^31` (so no `Int32Array`
entry wraps), the inclusion–exclusion formula `(D + A - B - C) / count`
computed from the integral image (out-of-bounds corners treated as zero,
`count` the rectangle's pixel area) equals the brute-force sum of the
rectangle's first-channel intensities divided by its area; at overflow
sizes the corner formula can differ (see the counterexample). -/
theorem windowed_mean_correct (d : ℕ → ℕ) (w h x1 y1 x2 y2 : ℕ)
    (hx12 : x1 ≤ x2) (hx2 : x2 < w) (hy12 : y1 ≤ y2) (hy2 : y2 < h)
    (hovf : bruteSum d w (w - 1) (h - 1) < 2 ^ 31) :
    (rectAreaSum d w x1 y1 x2 y2 : ℚ) / (((x2 - x1 + 1) * (y2 - y1 + 1) : ℕ) : ℚ) =
      ((bruteRect d w x1 y1 x2 y2 : ℕ) : ℚ) / (((x2 - x1 + 1) * (y2 - y1 + 1) : ℕ) : ℚ) := by
  have hc : bruteSum d w x2 y2 < 2 ^ 31 :=
    lt_of_le_of_lt (bruteSum_mono d w (by omega) (by omega)) hovf
  rw [rectAreaSum_eq_bruteRect d w x1 y1 x2 y2 hx12 hy12 hc]
  push_cast
  ring

/-- Witness for C2 on the concrete 2×2 buffer `sampleBuf` and the 1×1
rectangle `(1,1)-(1,1)` (all four integral corners in play, no
overflow). -/
theorem windowed_mean_correct_witness :
    (rectAreaSum sampleBuf 2 1 1 1 1 : ℚ) / (((1 - 1 + 1) * (1 - 1 + 1) : ℕ) : ℚ) =
      ((bruteRect sampleBuf 2 1 1 1 1 : ℕ) : ℚ) / (((1 - 1 + 1) * (1 - 1 + 1) : ℕ) : ℚ) :=
  windowed_mean_correct sampleBuf 2 2 1 1 1 1 (by decide) (by decide) (by decide)
    (by decide) (by decide)

theorem bruteRect_bright :
    bruteRect bright 8421505 8421504 0 8421504 0 = 255 := by
  simp [bruteRect, Finset.Icc_self, Finset.sum_singleton, px, bright]

theorem rectAreaSum_bright :
    rectAreaSum bright 8421505 8421504 0 8421504 0 = -4294967041 := by
  simp only [rectAreaSum]
  rw [if_neg (by decide : ¬ ((0:ℕ) < 8421504 ∧ (0:ℕ) < 0)),
    if_neg (by decide : ¬ (0:ℕ) < 0),
    if_pos (by decide : (0:ℕ) < 8421504),
    (by norm_num : (8421504:ℕ) - 1 = 8421503),
    bright_integral_last, bright_integral_prev]
  norm_num

/-- **C2, counterexample.** On the all-255 single-row buffer of 8421505
pixels, for the 1×1 rectangle at the last pixel corner `D` has wrapped
while corner `C` has not, so `D + A - B - C = -4294967041` although the
brute-force rectangle sum is 255: the claimed mean equality fails at this
fully-in-bounds rectangle. -/
theorem windowed_mean_overflow_counterexample :
    rectAreaSum bright 8421505 8421504 0 8421504 0 = -4294967041 ∧
    bruteRect bright 8421505 8421504 0 8421504 0 = 255 ∧
    (rectAreaSum bright 8421505 8421504 0 8421504 0 : ℚ) /
        (((8421504 - 8421504 + 1) * (0 - 0 + 1) : ℕ) : ℚ) ≠
      ((bruteRect bright 8421505 8421504 0 8421504 0 : ℕ) : ℚ) /
        (((8421504 - 8421504 + 1) * (0 - 0 + 1) : ℕ) : ℚ) := by
  refine ⟨rectAreaSum_bright, bruteRect_bright, ?_⟩
  rw [rectAreaSum_bright, bruteRect_bright]
  norm_num

/-- `applyAdaptiveThreshold` from the source, given as the pointwise
contents of the fresh `output` array that the code writes back over `data`
with `data.set(output)` (every read is from the original buffer `d`, every
pixel `(x,y)` with `x < width`, `y < height` is written, and slots beyond
the written region of the fresh array stay `0`).  `halfWindow =
Math.floor(windowSize/2)` is natural division, the `Math.max(_,0)` clamps
are truncated natural subtraction, and the floating-point comparison
`value > mean - constant` is carried out in `ℚ`. -/
def applyAdaptiveThreshold (d : ℕ → ℕ) (w h windowSize : ℕ) (constant : ℤ) :
    ℕ → ℕ := fun j =>
  if j < 4 * (w * h) then
    if j % 4 = 3 then 255
    else
      let p := j / 4
      let x := p % w
      let y := p / w
      let halfWindow := windowSize / 2
      let x1 := x - halfWindow
      let y1 := y - halfWindow
      let x2 := min (x + halfWindow) (w - 1)
      let y2 := min (y + halfWindow) (h - 1)
      let count := (x2 - x1 + 1) * (y2 - y1 + 1)
      let mean : ℚ := (rectAreaSum d w x1 y1 x2 y2 : ℚ) / (count : ℚ)
      if ((d ((y * w + x) * 4) : ℚ)) > mean - (constant : ℚ) then 255 else 0
  else 0

/-- Executable restatement of `applyAdaptiveThreshold`: the rational test
`value > sum/count - constant` is replaced by the equivalent
cross-multiplied integer test `sum < (value + constant) * count` (the
window `count` is always positive).  Proved equal to the source embedding
in `applyAdaptiveThreshold_eq_int`; used to evaluate concrete buffers. -/
def applyAdaptiveThresholdInt (d : ℕ → ℕ) (w h windowSize : ℕ) (constant : ℤ) :
    ℕ → ℕ := fun j =>
  if j < 4 * (w * h) then
    if j % 4 = 3 then 255
    else
      let p := j / 4
      let x := p % w
      let y := p / w
      let halfWindow := windowSize / 2
      let x1 := x - halfWindow
      let y1 := y - halfWindow
      let x2 := min (x + halfWindow) (w - 1)
      let y2 := min (y + halfWindow) (h - 1)
      let count := (x2 - x1 + 1) * (y2 - y1 + 1)
      if rectAreaSum d w x1 y1 x2 y2 < ((d ((y * w + x) * 4) : ℤ) + constant) * (count : ℤ)
        then 255 else 0
  else 0

theorem applyAdaptiveThreshold_eq_int (d : ℕ → ℕ) (w h win : ℕ) (cst : ℤ) :
    applyAdaptiveThreshold d w h win cst = applyAdaptiveThresholdInt d w h win cst := by
  funext j
  simp only [applyAdaptiveThreshold, applyAdaptiveThresholdInt]
  by_cases h1 : j < 4 * (w * h)
  · rw [if_pos h1, if_pos h1]
    by_cases h2 : j % 4 = 3
    · rw [if_pos h2, if_pos h2]
    · rw [if_neg h2, if_neg h2]
      apply if_congr _ rfl rfl
      have hcount : (0 : ℚ) <
          (((min (j / 4 % w + win / 2) (w - 1) - (j / 4 % w - win / 2) + 1) *
            (min (j / 4 / w + win / 2) (h - 1) - (j / 4 / w - win / 2) + 1) : ℕ) : ℚ) := by
        exact_mod_cast Nat.mul_pos (Nat.succ_pos _) (Nat.succ_pos _)
      rw [gt_iff_lt, sub_lt_iff_lt_add, div_lt_iff₀ hcount]
      push_cast
      norm_cast
  · rw [if_neg h1, if_neg h1]

/-- Classification rule of `applyAdaptiveThreshold` relative to the
brute-force local windowed mean (helper for the C3 theorem). -/
theorem adaptiveThreshold_rule (d : ℕ → ℕ) (w h win : ℕ) (cst : ℤ)
    (x y c : ℕ) (hx : x < w) (hy : y < h) (hc : c < 3)
    (hovf : bruteSum d w (w - 1) (h - 1) < 2 ^ 31) :
    applyAdaptiveThreshold d w h win cst ((y * w + x) * 4 + c) =
      (let x1 := x - win / 2
       let y1 := y - win / 2
       let x2 := min (x + win / 2) (w - 1)
       let y2 := min (y + win / 2) (h - 1)
       let count := (x2 - x1 + 1) * (y2 - y1 + 1)
       let mean : ℚ := ((bruteRect d w x1 y1 x2 y2 : ℕ) : ℚ) / (count : ℚ)
       if ((d ((y * w + x) * 4) : ℚ)) > mean - (cst : ℚ) then 255 else 0) := by
  have hw : 0 < w := lt_of_le_of_lt (Nat.zero_le x) hx
  have hp : y * w + x < w * h := by
    have h1 : y * w + x < (y + 1) * w := by
      rw [add_mul, one_mul]; omega
    have h2 : (y + 1) * w ≤ h * w := Nat.mul_le_mul_right w hy
    calc y * w + x < (y + 1) * w := h1
      _ ≤ h * w := h2
      _ = w * h := Nat.mul_comm h w
  have hj : (y * w + x) * 4 + c < 4 * (w * h) := by omega
  have hdiv : ((y * w + x) * 4 + c) / 4 = y * w + x := by omega
  have hmod : ((y * w + x) * 4 + c) % 4 = c := by omega
  have hxm : (y * w + x) % w = x := by
    rw [Nat.add_comm, Nat.add_mul_mod_self_right]
    exact Nat.mod_eq_of_lt hx
  have hyd : (y * w + x) / w = y := by
    rw [Nat.add_comm, Nat.add_mul_div_right x y hw, Nat.div_eq_of_lt hx,
      Nat.zero_add]
  have hx12 : x - win / 2 ≤ min (x + win / 2) (w - 1) := le_min (by omega) (by omega)
  have hy12 : y - win / 2 ≤ min (y + win / 2) (h - 1) := le_min (by omega) (by omega)
  have hcast : (rectAreaSum d w (x - win / 2) (y - win / 2)
      (min (x + win / 2) (w - 1)) (min (y + win / 2) (h - 1)) : ℚ) =
      ((bruteRect d w (x - win / 2) (y - win / 2)
      (min (x + win / 2) (w - 1)) (min (y + win / 2) (h - 1)) : ℕ) : ℚ) := by
    rw [rectAreaSum_eq_bruteRect d w _ _ _ _ hx12 hy12
      (lt_of_le_of_lt (bruteSum_mono d w (min_le_right _ _) (min_le_right _ _)) hovf)]
    push_cast
    ring
  simp only [applyAdaptiveThreshold]
  rw [if_pos hj]
  simp only [hmod, hdiv, hxm, hyd]
  rw [if_neg (by omega : ¬ c = 3)]
  rw [hcast]

/-- A buffer with every channel byte 128: the spec's synthetic uniform
gray 3×3 example. -/
def u128 : ℕ → ℕ := fun _ => 128

/-- **C3, amended.** For every in-bounds pixel and color channel of an
image whose total intensity sum stays below `2^31` (no `Int32Array`
wrap), `applyAdaptiveThreshold` writes 255 exactly when the pixel's
original intensity is strictly greater than the local windowed mean (the
brute-force mean over the clamped window) minus the threshold constant,
and 0 otherwise — so equality classifies as black; in particular a 3×3
uniform buffer of intensity 128 with `windowSize=3` is all-white for
`thresholdConstant=10` and all-black (color channels 0) for
`thresholdConstant=-10`.  At overflow sizes the code compares against the
wrapped mean and can classify differently (see the counterexample). -/
theorem adaptiveThreshold_classification :
    (∀ (d : ℕ → ℕ) (w h win : ℕ) (cst : ℤ) (x y c : ℕ),
      x < w → y < h → c < 3 →
      bruteSum d w (w - 1) (h - 1) < 2 ^ 31 →
      applyAdaptiveThreshold d w h win cst ((y * w + x) * 4 + c) =
        (let x1 := x - win / 2
         let y1 := y - win / 2
         let x2 := min (x + win / 2) (w - 1)
         let y2 := min (y + win / 2) (h - 1)
         let count := (x2 - x1 + 1) * (y2 - y1 + 1)
         let mean : ℚ := ((bruteRect d w x1 y1 x2 y2 : ℕ) : ℚ) / (count : ℚ)
         if ((d ((y * w + x) * 4) : ℚ)) > mean - (cst : ℚ) then 255 else 0)) ∧
    (∀ j, j < 36 → applyAdaptiveThreshold u128 3 3 3 10 j = 255) ∧
    (∀ j, j < 36 → applyAdaptiveThreshold u128 3 3 3 (-10) j =
      if j % 4 = 3 then 255 else 0) := by
  refine ⟨adaptiveThreshold_rule, ?_, ?_⟩
  · simp only [applyAdaptiveThreshold_eq_int]
    decide
  · simp only [applyAdaptiveThreshold_eq_int]
    decide

/-- Witness for C3: the classification rule instantiated at pixel `(0,0)`
of the 3×3 uniform-128 buffer with `windowSize=3, thresholdConstant=10`,
all hypotheses discharged concretely. -/
theorem adaptiveThreshold_classification_witness :
    applyAdaptiveThreshold u128 3 3 3 10 ((0 * 3 + 0) * 4 + 0) =
      (let x1 : ℕ := 0 - 3 / 2
       let y1 : ℕ := 0 - 3 / 2
       let x2 : ℕ := min (0 + 3 / 2) (3 - 1)
       let y2 : ℕ := min (0 + 3 / 2) (3 - 1)
       let count : ℕ := (x2 - x1 + 1) * (y2 - y1 + 1)
       let mean : ℚ := ((bruteRect u128 3 x1 y1 x2 y2 : ℕ) : ℚ) / (count : ℚ)
       if ((u128 ((0 * 3 + 0) * 4) : ℚ)) > mean - ((10 : ℤ) : ℚ) then 255 else 0) :=
  adaptiveThreshold_classification.1 u128 3 3 3 10 0 0 0 (by decide) (by decide)
    (by decide) (by decide)

/-- **C3, counterexample.** On the all-255 single-row buffer of 8421505
pixels with `windowSize=1` and `thresholdConstant=-10`, the last pixel's
window is just itself, so its true local mean is 255 and the claimed rule
predicts black (255 is not greater than 255+10); but the code's wrapped
integral makes `D + A - B - C = -4294967041`, so the code writes
white. -/
theorem threshold_overflow_counterexample :
    applyAdaptiveThreshold bright 8421505 1 1 (-10) 33686016 = 255 ∧
    ¬ ((bright 33686016 : ℚ) >
        ((bruteRect bright 8421505 8421504 0 8421504 0 : ℕ) : ℚ) /
          (((8421504 - 8421504 + 1) * (0 - 0 + 1) : ℕ) : ℚ) - ((-10 : ℤ) : ℚ)) := by
  constructor
  · rw [applyAdaptiveThreshold_eq_int]
    simp only [applyAdaptiveThresholdInt]
    rw [if_pos (by norm_num : (33686016 : ℕ) < 4 * (8421505 * 1)),
      if_neg (by norm_num : ¬ (33686016 : ℕ) % 4 = 3)]
    norm_num [min_def, bright]
    rw [rectAreaSum_bright]
    norm_num
  · rw [bruteRect_bright]
    norm_num [bright]

/-- The upscaling decision of `preprocessImage`: when `upscale` is enabled
and either decoded dimension is below 1500, both dimensions are doubled
(`width *= 2; height *= 2`); otherwise they are left unchanged. -/
def upscaledDims (upscale : Bool) (w h : ℕ) : ℕ × ℕ :=
  if upscale ∧ (w < 1500 ∨ h < 1500) then (w * 2, h * 2) else (w, h)

/-- **C4, counterexample.** The claim says an 1800×900 input produces no
dimension change, but 900 is below the 1500 floor, so the code doubles
both dimensions to 3600×1800. -/
theorem upscale_1800x900_counterexample :
    upscaledDims true 1800 900 = (3600, 1800) ∧
      upscaledDims true 1800 900 ≠ (1800, 900) := by
  constructor
  · simp [upscaledDims]
  · simp [upscaledDims]

/-- **C4, amended.** With upscale enabled, if either decoded dimension is
below the 1500-px floor then both dimensions are doubled, and an image
with both dimensions at or above the floor is left unchanged; in
particular 100×100 becomes 200×200 and 1800×900 becomes 3600×1800 (900 is
below the floor). -/
theorem upscale_threshold_amended :
    (∀ w h : ℕ, w < 1500 ∨ h < 1500 → upscaledDims true w h = (w * 2, h * 2)) ∧
    (∀ w h : ℕ, 1500 ≤ w → 1500 ≤ h → upscaledDims true w h = (w, h)) ∧
    upscaledDims true 100 100 = (200, 200) ∧
    upscaledDims true 1800 900 = (3600, 1800) := by
  refine ⟨?_, ?_, by simp [upscaledDims], by simp [upscaledDims]⟩
  · intro w h hwh
    simp [upscaledDims, hwh]
  · intro w h hw hh
    simp [upscaledDims]
    omega

/-- Witness for C4 (amended): the doubling branch applied at the concrete
100×100 input. -/
theorem upscale_threshold_amended_witness :
    upscaledDims true 100 100 = (100 * 2, 100 * 2) :=
  upscale_threshold_amended.1 100 100 (Or.inl (by decide))

/-- Pixel values written by `applyAdaptiveThreshold` never exceed 255. -/
theorem applyAdaptiveThresholdInt_le (d : ℕ → ℕ) (w h win : ℕ) (cst : ℤ)
    (i : ℕ) : applyAdaptiveThresholdInt d w h win cst i ≤ 255 := by
  simp only [applyAdaptiveThresholdInt]
  split
  · split
    · omega
    · split <;> omega
  · omega

/-- Within one pixel, the three color channels receive the same binary
value (the test does not depend on the channel index below 3). -/
theorem thrInt_channel (d : ℕ → ℕ) (w h win : ℕ) (cst : ℤ) (p c : ℕ)
    (hc : c < 3) (hp : p < w * h) :
    applyAdaptiveThresholdInt d w h win cst (p * 4 + c) =
      applyAdaptiveThresholdInt d w h win cst (p * 4) := by
  simp only [applyAdaptiveThresholdInt]
  have h1 : p * 4 + c < 4 * (w * h) := by omega
  have h2 : p * 4 < 4 * (w * h) := by omega
  rw [if_pos h1, if_pos h2, if_neg (by omega : ¬ (p * 4 + c) % 4 = 3),
    if_neg (by omega : ¬ (p * 4) % 4 = 3),
    (by omega : (p * 4 + c) / 4 = p), (by omega : (p * 4) / 4 = p)]

/-- Sufficient condition for `applyAdaptiveThresholdInt` to write 255 at a
byte index: the index is in range and is either an opacity slot or its
pixel passes the threshold test. -/
theorem applyAdaptiveThresholdInt_white (d : ℕ → ℕ) (w h win : ℕ) (cst : ℤ)
    (j : ℕ) (hj : j < 4 * (w * h))
    (hcond : j % 4 = 3 ∨
      rectAreaSum d w (j / 4 % w - win / 2) (j / 4 / w - win / 2)
          (min (j / 4 % w + win / 2) (w - 1)) (min (j / 4 / w + win / 2) (h - 1)) <
        ((d ((j / 4 / w * w + j / 4 % w) * 4) : ℤ) + cst) *
          (((min (j / 4 % w + win / 2) (w - 1) - (j / 4 % w - win / 2) + 1) *
            (min (j / 4 / w + win / 2) (h - 1) - (j / 4 / w - win / 2) + 1) : ℕ) : ℤ)) :
    applyAdaptiveThresholdInt d w h win cst j = 255 := by
  simp only [applyAdaptiveThresholdInt]
  rw [if_pos hj]
  rcases hcond with hc | hc
  · rw [if_pos hc]
  · by_cases h3 : j % 4 = 3
    · rw [if_pos h3]
    · rw [if_neg h3, if_pos hc]

/-- Upper bound on the brute-force rectangle sum when every buffer byte is
at most 255. -/
theorem bruteRect_le (d : ℕ → ℕ) (w x1 y1 x2 y2 : ℕ)
    (hd : ∀ i, d i ≤ 255) :
    bruteRect d w x1 y1 x2 y2 ≤ 255 * ((x2 - x1 + 1) * (y2 - y1 + 1)) := by
  unfold bruteRect
  calc ∑ y ∈ Finset.Icc y1 y2, ∑ x ∈ Finset.Icc x1 x2, px d w x y
      ≤ ∑ y ∈ Finset.Icc y1 y2, ∑ x ∈ Finset.Icc x1 x2, 255 := by
        refine Finset.sum_le_sum fun y _ => Finset.sum_le_sum fun x _ => hd _
    _ ≤ 255 * ((x2 - x1 + 1) * (y2 - y1 + 1)) := by
        simp only [Finset.sum_const, Nat.card_Icc, smul_eq_mul]
        have e1 : x2 + 1 - x1 ≤ x2 - x1 + 1 := by omega
        have e2 : y2 + 1 - y1 ≤ y2 - y1 + 1 := by omega
        calc (y2 + 1 - y1) * ((x2 + 1 - x1) * 255)
            ≤ (y2 - y1 + 1) * ((x2 - x1 + 1) * 255) :=
              Nat.mul_le_mul e2 (Nat.mul_le_mul_right 255 e1)
          _ = 255 * ((x2 - x1 + 1) * (y2 - y1 + 1)) := by ring

/-- Upper bound on the brute-force prefix sum when every buffer byte is
at most 255. -/
theorem bruteSum_le (d : ℕ → ℕ) (w x y : ℕ) (hd : ∀ i, d i ≤ 255) :
    bruteSum d w x y ≤ 255 * ((x + 1) * (y + 1)) := by
  unfold bruteSum
  calc ∑ b ∈ Finset.range (y + 1), ∑ a ∈ Finset.range (x + 1), px d w a b
      ≤ ∑ b ∈ Finset.range (y + 1), ∑ a ∈ Finset.range (x + 1), 255 :=
        Finset.sum_le_sum fun b _ => Finset.sum_le_sum fun a _ => hd _
    _ = 255 * ((x + 1) * (y + 1)) := by
        simp only [Finset.sum_const, Finset.card_range, smul_eq_mul]
        ring

/-- **C5, amended.** For buffers below the `Int32Array` overflow
threshold (`255 * width * height < 2^31`) and a positive threshold
constant, re-running `applyAdaptiveThreshold` on its own output with the
same configuration never turns a white byte black: every byte written 255
by the first pass is written 255 by the second.  (Full idempotence fails;
see the counterexample, where a black pixel whose window became all black
flips to white.) -/
theorem binarize_white_stable (d : ℕ → ℕ) (w h win : ℕ) (cst : ℤ)
    (hcst : 0 < cst) (hbuf : 255 * (w * h) < 2 ^ 31) (j : ℕ)
    (hwhite : applyAdaptiveThreshold d w h win cst j = 255) :
    applyAdaptiveThreshold (applyAdaptiveThreshold d w h win cst) w h win cst j = 255 := by
  simp only [applyAdaptiveThreshold_eq_int] at hwhite ⊢
  have hle : ∀ i, applyAdaptiveThresholdInt d w h win cst i ≤ 255 :=
    applyAdaptiveThresholdInt_le d w h win cst
  have hj : j < 4 * (w * h) := by
    by_contra hcon
    simp only [applyAdaptiveThresholdInt, if_neg hcon] at hwhite
    exact absurd hwhite (by decide)
  apply applyAdaptiveThresholdInt_white _ w h win cst j hj
  by_cases h3 : j % 4 = 3
  · exact Or.inl h3
  · right
    have hp : j / 4 < w * h := by omega
    have hw : 0 < w := by
      rcases Nat.eq_zero_or_pos w with h0 | h0
      · subst h0; simp at hp
      · exact h0
    have hx12 : j / 4 % w - win / 2 ≤ min (j / 4 % w + win / 2) (w - 1) := by
      have := Nat.mod_lt (j / 4) hw
      exact le_min (by omega) (by omega)
    have hy12 : j / 4 / w - win / 2 ≤ min (j / 4 / w + win / 2) (h - 1) := by
      have hyh : j / 4 / w < h := by
        rcases Nat.eq_zero_or_pos h with hh0 | hh0
        · exact absurd hp (by subst hh0; simp)
        · exact Nat.div_lt_of_lt_mul (by omega)
      generalize hq : j / 4 / w = q at hyh ⊢
      exact le_min (by omega) (by omega)
    have hrecomb : j / 4 / w * w + j / 4 % w = j / 4 := by
      rw [Nat.mul_comm]
      exact Nat.div_add_mod (j / 4) w
    have hv : applyAdaptiveThresholdInt d w h win cst (j / 4 * 4) = 255 := by
      rw [← thrInt_channel d w h win cst (j / 4) (j % 4) (by omega) hp,
        (by omega : j / 4 * 4 + j % 4 = j)]
      exact hwhite
    have hh : 0 < h := by
      rcases Nat.eq_zero_or_pos h with hh0 | hh0
      · exact absurd hp (by subst hh0; simp)
      · exact hh0
    have hovf1 : bruteSum (applyAdaptiveThresholdInt d w h win cst) w
        (min (j / 4 % w + win / 2) (w - 1)) (min (j / 4 / w + win / 2) (h - 1)) < 2 ^ 31 := by
      have h1 : min (j / 4 % w + win / 2) (w - 1) + 1 ≤ w := by
        have := min_le_right (j / 4 % w + win / 2) (w - 1)
        omega
      have h2 : min (j / 4 / w + win / 2) (h - 1) + 1 ≤ h := by
        have := min_le_right (j / 4 / w + win / 2) (h - 1)
        omega
      calc bruteSum (applyAdaptiveThresholdInt d w h win cst) w
            (min (j / 4 % w + win / 2) (w - 1)) (min (j / 4 / w + win / 2) (h - 1))
          ≤ 255 * ((min (j / 4 % w + win / 2) (w - 1) + 1) *
              (min (j / 4 / w + win / 2) (h - 1) + 1)) :=
            bruteSum_le (applyAdaptiveThresholdInt d w h win cst) w _ _ hle
        _ ≤ 255 * (w * h) := Nat.mul_le_mul_left 255 (Nat.mul_le_mul h1 h2)
        _ < 2 ^ 31 := hbuf
    have hS := rectAreaSum_eq_bruteRect (applyAdaptiveThresholdInt d w h win cst)
      w _ _ _ _ hx12 hy12 hovf1
    have hB := bruteRect_le (applyAdaptiveThresholdInt d w h win cst)
      w (j / 4 % w - win / 2) (j / 4 / w - win / 2)
      (min (j / 4 % w + win / 2) (w - 1)) (min (j / 4 / w + win / 2) (h - 1)) hle
    rw [hrecomb, hv, hS]
    have hcz : (0 : ℤ) <
        (((min (j / 4 % w + win / 2) (w - 1) - (j / 4 % w - win / 2) + 1) *
          (min (j / 4 / w + win / 2) (h - 1) - (j / 4 / w - win / 2) + 1) : ℕ) : ℤ) := by
      exact_mod_cast Nat.mul_pos (Nat.succ_pos _) (Nat.succ_pos _)
    have hBz : ((bruteRect (applyAdaptiveThresholdInt d w h win cst)
        w (j / 4 % w - win / 2) (j / 4 / w - win / 2)
        (min (j / 4 % w + win / 2) (w - 1)) (min (j / 4 / w + win / 2) (h - 1)) : ℕ) : ℤ) ≤
        255 * (((min (j / 4 % w + win / 2) (w - 1) - (j / 4 % w - win / 2) + 1) *
          (min (j / 4 / w + win / 2) (h - 1) - (j / 4 / w - win / 2) + 1) : ℕ) : ℤ) := by
      exact_mod_cast hB
    have hmul := mul_pos hcst hcz
    push_cast at hBz hcz hmul ⊢
    nlinarith [hBz, hmul]

/-- The 5×1 idempotence counterexample row: first-channel intensities
200, 60, 0, 60, 200 form a strictly convex valley, so the three middle
pixels binarize to black and the middle pixel's whole window is black. -/
def valleyRow : ℕ → ℕ := fun j =>
  if j / 4 = 0 then 200 else if j / 4 = 1 then 60 else if j / 4 = 2 then 0
  else if j / 4 = 3 then 60 else 200

/-- **C5, counterexample.** On the 5×1 buffer `valleyRow` with
`windowSize=3, thresholdConstant=10`, the first pass writes 0 at byte 8
(pixel 2, red channel) but the second pass over the first pass's output
writes 255 there: `applyAdaptiveThreshold` is not idempotent. -/
theorem binarize_idempotence_counterexample :
    applyAdaptiveThreshold valleyRow 5 1 3 10 8 = 0 ∧
      applyAdaptiveThreshold (applyAdaptiveThreshold valleyRow 5 1 3 10) 5 1 3 10 8 = 255 := by
  simp only [applyAdaptiveThreshold_eq_int]
  decide

/-- Witness for C5 (amended): on a 1×1 uniform buffer with
`thresholdConstant=10 > 0`, pixel byte 0 is white after one pass and stays
white after a second pass, via `binarize_white_stable`. -/
theorem binarize_white_stable_witness :
    (0 : ℤ) < 10 ∧ 255 * (1 * 1) < 2 ^ 31 ∧
      applyAdaptiveThreshold u128 1 1 3 10 0 = 255 ∧
      applyAdaptiveThreshold (applyAdaptiveThreshold u128 1 1 3 10) 1 1 3 10 0 = 255 :=
  ⟨by decide, by decide, by simp only [applyAdaptiveThreshold_eq_int]; decide,
    binarize_white_stable u128 1 1 3 10 (by decide) (by decide) 0
      (by simp only [applyAdaptiveThreshold_eq_int]; decide)⟩

/-- The `Uint8ClampedArray` store conversion applied by every assignment
into the pixel buffer: clamp to `[0,255]` and round to the nearest
integer, ties to even (ECMAScript `ToUint8Clamp`). -/
def clampRound (q : ℚ) : ℕ :=
  if q ≤ 0 then 0
  else if 255 ≤ q then 255
  else
    let f := (⌊q⌋).toNat
    if q - ⌊q⌋ < 1 / 2 then f
    else if (1 : ℚ) / 2 < q - ⌊q⌋ then f + 1
    else if f % 2 = 0 then f else f + 1

/-- The exact rational value of the luminance expression in the grayscale
loop: `0.299*r + 0.587*g + 0.114*b`.  The code evaluates this expression
in float64, whose result can differ from the exact rational by up to one
ulp; the divergence can change the stored byte on tie-adjacent channel
triples, so the pipeline theorems below do not depend on the stored gray
bytes. -/
def lum (r g b : ℕ) : ℚ :=
  (299 : ℚ) / 1000 * r + (587 : ℚ) / 1000 * g + (114 : ℚ) / 1000 * b

/-- The grayscale stage of `preprocessImage`: over the whole
`width*height*4` buffer, each pixel's three color channels are overwritten
with the stored luminance of that pixel's original channels
(`data[i] = data[i+1] = data[i+2] = gray`); the opacity byte is not
assigned.  The float64 evaluation of the luminance is idealized as the
exact rational `lum` (see `lum`); no claim is settled against the stored
gray bytes. -/
def grayscaleStage (w h : ℕ) (d : ℕ → ℕ) : ℕ → ℕ := fun j =>
  if j < 4 * (w * h) then
    if j % 4 = 3 then d j
    else clampRound (lum (d (j / 4 * 4)) (d (j / 4 * 4 + 1)) (d (j / 4 * 4 + 2)))
  else d j

/-- The nine first-channel intensities of the 3×3 neighborhood of an
interior pixel `(x,y)`, read from the pre-filter snapshot, in the source's
gathering order (`ky` outer from -1 to 1, `kx` inner from -1 to 1). -/
def neighborhood (d : ℕ → ℕ) (w x y : ℕ) : List ℕ :=
  [d (((y - 1) * w + (x - 1)) * 4), d (((y - 1) * w + x) * 4),
   d (((y - 1) * w + (x + 1)) * 4),
   d ((y * w + (x - 1)) * 4), d ((y * w + x) * 4), d ((y * w + (x + 1)) * 4),
   d (((y + 1) * w + (x - 1)) * 4), d (((y + 1) * w + x) * 4),
   d (((y + 1) * w + (x + 1)) * 4)]

/-- `neighbors.sort((a,b) => a-b)` followed by `neighbors[4]`: the 5th of
the 9 ascending-sorted values. -/
def medianOf (l : List ℕ) : ℕ := (l.insertionSort (· ≤ ·)).getD 4 0

/-- `applyMedianFilter` from the source as a pointwise function of the
final buffer contents: the loops cover interior pixels only
(`1 ≤ x < width-1`, `1 ≤ y < height-1`), write the snapshot median into
the three color channels, and leave the opacity byte and the border ring
unassigned.  All reads are from the snapshot copy of the original buffer,
so the in-place writes are order independent and the result is pointwise
in the original `d`. -/
def applyMedianFilter (d : ℕ → ℕ) (w h : ℕ) : ℕ → ℕ := fun j =>
  let p := j / 4
  let x := p % w
  let y := p / w
  if 1 ≤ x ∧ x < w - 1 ∧ 1 ≤ y ∧ y < h - 1 ∧ j % 4 < 3 then
    medianOf (neighborhood d w x y)
  else d j

/-- **C7.** `applyMedianFilter` leaves the outermost 1-pixel border ring
bit-for-bit unchanged and every opacity byte unmodified; each interior
pixel's three color channels receive the 5th of the 9 sorted intensities
of its 3×3 neighborhood read from the pre-filter snapshot. -/
theorem median_filter_frame :
    (∀ (d : ℕ → ℕ) (w h x y c : ℕ), c < 4 → x < w → y < h →
      (x = 0 ∨ y = 0 ∨ x = w - 1 ∨ y = h - 1) →
      applyMedianFilter d w h ((y * w + x) * 4 + c) = d ((y * w + x) * 4 + c)) ∧
    (∀ (d : ℕ → ℕ) (w h j : ℕ), j % 4 = 3 →
      applyMedianFilter d w h j = d j) ∧
    (∀ (d : ℕ → ℕ) (w h x y c : ℕ), c < 3 →
      1 ≤ x → x < w - 1 → 1 ≤ y → y < h - 1 →
      applyMedianFilter d w h ((y * w + x) * 4 + c) =
        medianOf (neighborhood d w x y)) := by
  have coords : ∀ (w x y c : ℕ), x < w → c < 4 →
      ((y * w + x) * 4 + c) / 4 % w = x ∧ ((y * w + x) * 4 + c) / 4 / w = y := by
    intro w x y c hx hc
    have hw : 0 < w := lt_of_le_of_lt (Nat.zero_le x) hx
    have hdiv : ((y * w + x) * 4 + c) / 4 = y * w + x := by omega
    rw [hdiv]
    constructor
    · rw [Nat.add_comm, Nat.add_mul_mod_self_right]
      exact Nat.mod_eq_of_lt hx
    · rw [Nat.add_comm, Nat.add_mul_div_right x y hw, Nat.div_eq_of_lt hx,
        Nat.zero_add]
  refine ⟨?_, ?_, ?_⟩
  · intro d w h x y c hc hx hy hb
    obtain ⟨hxm, hyd⟩ := coords w x y c hx hc
    simp only [applyMedianFilter, hxm, hyd]
    rw [if_neg]
    rintro ⟨b1, b2, b3, b4, _⟩
    rcases hb with hb | hb | hb | hb <;> omega
  · intro d w h j hj
    simp only [applyMedianFilter]
    rw [if_neg]
    rintro ⟨_, _, _, _, b5⟩
    omega
  · intro d w h x y c hc hx1 hx2 hy1 hy2
    have hx : x < w := by omega
    obtain ⟨hxm, hyd⟩ := coords w x y c hx (by omega)
    simp only [applyMedianFilter, hxm, hyd]
    rw [if_pos ⟨hx1, hx2, hy1, hy2, by omega⟩]

/-- A 3×3 buffer whose first-channel intensities are 10,20,30 / 40,50,60 /
70,80,90 (channel values equal within a pixel, opacity 255). -/
def grad3 : ℕ → ℕ := fun j =>
  if j % 4 = 3 then 255 else (j / 4 + 1) * 10

/-- Witness for C7: the interior clause instantiated at the center pixel
of the 3×3 buffer `grad3`, plus concrete evaluation showing the median of
the snapshot neighborhood (50) is written there while a border byte and
the center opacity byte are untouched. -/
theorem median_filter_frame_witness :
    applyMedianFilter grad3 3 3 ((1 * 3 + 1) * 4 + 0) =
      medianOf (neighborhood grad3 3 1 1) ∧
    medianOf (neighborhood grad3 3 1 1) = 50 ∧
    applyMedianFilter grad3 3 3 0 = grad3 0 ∧
    applyMedianFilter grad3 3 3 ((1 * 3 + 1) * 4 + 3) = grad3 ((1 * 3 + 1) * 4 + 3) :=
  ⟨median_filter_frame.2.2 grad3 3 3 1 1 0 (by decide) (by decide) (by decide)
      (by decide) (by decide),
    by decide,
    median_filter_frame.1 grad3 3 3 0 0 0 (by decide) (by decide) (by decide)
      (Or.inl rfl),
    median_filter_frame.2.1 grad3 3 3 ((1 * 3 + 1) * 4 + 3) (by decide)⟩

/-- The options object accepted by `preprocessImage`; `none` models an
absent (unspecified) field.  These four booleans are the only recognized
fields — in particular no windowSize or threshold constant can be
passed. -/
structure PreprocessOptions where
  grayscale : Option Bool
  binarize : Option Bool
  denoise : Option Bool
  upscale : Option Bool

/-- The resolved configuration after the defaults-then-spread merge. -/
structure Config where
  grayscale : Bool
  binarize : Bool
  denoise : Bool
  upscale : Bool

/-- `{ grayscale: true, binarize: true, denoise: false, upscale: true,
...options }`: a present field overrides its default, an absent field
keeps it. -/
def mergeConfig (o : PreprocessOptions) : Config :=
  ⟨o.grayscale.getD true, o.binarize.getD true, o.denoise.getD false,
    o.upscale.getD true⟩

/-- Guard of the grayscale stage: `config.grayscale || config.binarize`. -/
def grayscaleStageRuns (c : Config) : Bool := c.grayscale || c.binarize

/-- Guard of the median stage: `config.denoise`. -/
def denoiseStageRuns (c : Config) : Bool := c.denoise

/-- The pixel stages applied to the decoded (and possibly upscaled)
buffer, in the source's order: grayscale conversion when grayscale or
binarize is enabled, median denoise when denoise is enabled, adaptive
threshold with the hard-coded profile `windowSize=41, constant=15` when
binarize is enabled. -/
def processBuffer (c : Config) (w h : ℕ) (d : ℕ → ℕ) : ℕ → ℕ :=
  let d1 := if grayscaleStageRuns c then grayscaleStage w h d else d
  let d2 := if denoiseStageRuns c then applyMedianFilter d1 w h else d1
  if c.binarize then applyAdaptiveThreshold d2 w h 41 15 else d2

/-- Outcome of handing the input bytes to the external decode capability:
either `img.onerror` fires (the bytes cannot be rasterized), or
`img.onload` fires with the decoded dimensions and a resampling function
producing the drawn buffer at any requested canvas size. -/
inductive DecodeOutcome where
  | failure
  | success (w h : ℕ) (resample : ℕ → ℕ → (ℕ → ℕ))

/-- What `preprocessImage` resolves with: the object URL of the original
input (the missing-2d-context fail-safe) or the encoded processed
canvas. -/
inductive PreprocessOutput where
  | originalUrl
  | processed (w h : ℕ) (data : ℕ → ℕ)

/-- The `preprocessImage` orchestration: merge defaults, then on decode
success compute the possibly doubled canvas size, draw, run the enabled
stages and resolve with the processed result (or resolve with the
original URL when the 2d context is unavailable); on decode failure the
promise is rejected (`img.onerror = e => { ...; reject(e) }`), modelled
as `Except.error`. -/
def preprocessImage (o : PreprocessOptions) (dec : DecodeOutcome)
    (ctxOk : Bool) : Except Unit PreprocessOutput :=
  let config := mergeConfig o
  match dec with
  | .failure => .error ()
  | .success w0 h0 resample =>
      let dims := upscaledDims config.upscale w0 h0
      if ctxOk then
        .ok (.processed dims.1 dims.2
          (processBuffer config dims.1 dims.2 (resample dims.1 dims.2)))
      else .ok .originalUrl

/-- The caller `handleFile`: when preprocessing is enabled it awaits
`preprocessImage(file, { grayscale: true, binarize: true })` inside a
`try`/`catch`; on rejection the catch falls back and the OCR input stays
the original file (`Sum.inl`), otherwise the processed string is used
(`Sum.inr`). -/
def handleFile (usePreprocessing : Bool) (dec : DecodeOutcome)
    (ctxOk : Bool) : Unit ⊕ PreprocessOutput :=
  if usePreprocessing then
    match preprocessImage ⟨some true, some true, none, none⟩ dec ctxOk with
    | .error _ => .inl ()
    | .ok s => .inr s
  else .inl ()

/-- **C9, counterexample.** On undecodable input bytes `preprocessImage`
rejects — the error IS raised to its caller — rather than resolving with
the original input (options here have `binarize=true`). -/
theorem fail_open_counterexample :
    preprocessImage ⟨none, some true, none, none⟩ DecodeOutcome.failure true =
      Except.error () ∧
    ¬ ∃ out, preprocessImage ⟨none, some true, none, none⟩
        DecodeOutcome.failure true = Except.ok out := by
  refine ⟨rfl, ?_⟩
  rintro ⟨out, hout⟩
  simp only [preprocessImage] at hout
  exact absurd hout (by simp)

/-- **C9, amended.** The fail-open fallback lives in the caller: on
decode failure `preprocessImage` rejects, `handleFile` catches the
rejection, and the recognition stage receives the original file — no
error escapes `handleFile`, for every preprocessing/context setting. -/
theorem fail_open_amended (usePre ctxOk : Bool) :
    handleFile usePre DecodeOutcome.failure ctxOk = Sum.inl () := by
  cases usePre <;> rfl

/-- Witness for C9 (amended) at the concrete setting
`usePreprocessing = true`, context available. -/
theorem fail_open_amended_witness :
    handleFile true DecodeOutcome.failure true = Sum.inl () :=
  fail_open_amended true true

/-- **C8, counterexample.** No `ConfigError` exists: the thresholder
invoked directly with the invalid (even) `windowSize = 4` on a 1×1
uniform buffer performs its pixel work and writes a processed binary
pixel — no error is surfaced before or instead of pixel work. -/
theorem config_error_counterexample :
    applyAdaptiveThreshold u128 1 1 4 10 0 = 255 ∧
    applyAdaptiveThreshold u128 1 1 4 10 3 = 255 := by
  simp only [applyAdaptiveThreshold_eq_int]
  decide

/-- **C8, amended.** The code performs no configuration validation: the
pipeline's options carry only four booleans (windowSize is fixed at 41
internally) and a run whose decode succeeded always resolves successfully
whatever the options; a windowSize passed directly to
`applyAdaptiveThreshold` is only used through `floor(windowSize/2)`, so
an even value `2k` is processed exactly like the odd value `2k+1` instead
of being rejected. -/
theorem config_error_amended :
    (∀ (d : ℕ → ℕ) (w h k : ℕ) (cst : ℤ),
      applyAdaptiveThreshold d w h (2 * k) cst =
        applyAdaptiveThreshold d w h (2 * k + 1) cst) ∧
    (∀ (o : PreprocessOptions) (w0 h0 : ℕ) (r : ℕ → ℕ → ℕ → ℕ) (ctxOk : Bool),
      ∃ out, preprocessImage o (.success w0 h0 r) ctxOk = Except.ok out) := by
  constructor
  · intro d w h k cst
    funext j
    simp only [applyAdaptiveThreshold]
    rw [(by omega : 2 * k / 2 = k), (by omega : (2 * k + 1) / 2 = k)]
  · intro o w0 h0 r ctxOk
    cases ctxOk
    · exact ⟨.originalUrl, rfl⟩
    · exact ⟨_, rfl⟩

/-- Witness for C8 (amended): even windowSize 4 behaves as 5 on the
concrete 1×1 uniform buffer. -/
theorem config_error_amended_witness :
    applyAdaptiveThreshold u128 1 1 (2 * 2) 10 =
      applyAdaptiveThreshold u128 1 1 (2 * 2 + 1) 10 :=
  config_error_amended.1 u128 1 1 2 10

/-- **C10.** With the options argument omitted the merged configuration
is `grayscale=true, binarize=true, denoise=false, upscale=true`; the
median-denoise stage never runs unless `denoise` is explicitly `true`;
and the grayscale stage runs whenever `binarize` is enabled even when
`grayscale` is explicitly `false`. -/
theorem default_options :
    mergeConfig ⟨none, none, none, none⟩ = ⟨true, true, false, true⟩ ∧
    (∀ o : PreprocessOptions, o.denoise ≠ some true →
      denoiseStageRuns (mergeConfig o) = false) ∧
    (∀ o : PreprocessOptions, (mergeConfig o).binarize = true →
      grayscaleStageRuns (mergeConfig o) = true) ∧
    grayscaleStageRuns (mergeConfig ⟨some false, some true, none, none⟩) = true := by
  refine ⟨rfl, ?_, ?_, rfl⟩
  · intro o ho
    cases h : o.denoise with
    | none => simp [denoiseStageRuns, mergeConfig, h]
    | some b =>
        cases b
        · simp [denoiseStageRuns, mergeConfig, h]
        · exact absurd h ho
  · intro o hb
    simp only [grayscaleStageRuns, hb, Bool.or_true]

/-- Witness for C10: the denoise clause instantiated at the concrete
options `{grayscale: false, binarize: true}` (denoise absent). -/
theorem default_options_witness :
    denoiseStageRuns (mergeConfig ⟨some false, some true, none, none⟩) = false :=
  default_options.2.1 ⟨some false, some true, none, none⟩ (by simp)

end ImageProc
